import Mathlib

/-!
Verification development for the PICLE interactive command-shell library
(`picle/picle.py`, `picle/models.py`).

The Python code is shallowly embedded: Python strings are modelled as
`List Char` (ASCII scope), Python runtime values produced by the shell's
value-coercion logic as `PVal`, pydantic models / fields as the mutual
inductive family `PModel` / `PField` / `PAnn` / `PipeCfg`, and the
command parser `App.parse_command` as an explicitly fueled state machine
over `ParseSt`.  All definitions are executable, so concrete commands can
be evaluated inside proofs with `decide` / `rfl`.
-/

set_option maxHeartbeats 2000000

namespace Picle

/-- Python strings, modelled as lists of characters (ASCII scope). -/
abbrev PStr := List Char

/-- Python runtime values that the shell's coercion logic can produce:
strings, booleans, `None`, non-negative integers (the only integers
`int(value)` is applied to are all-digit strings), and floats.  A float is
represented by the source string it was parsed from, since no claim
depends on float arithmetic. -/
inductive PVal where
  | str : PStr → PVal
  | pybool : Bool → PVal
  | pynone : PVal
  | pyint : Nat → PVal
  | pyfloat : PStr → PVal
deriving DecidableEq

/-- The `values` entry of a collected-field dictionary in
`App.parse_command`: the Ellipsis sentinel (`...`, no value yet), one
scalar value, or a list of accumulated values. -/
inductive FieldVals where
  | unset : FieldVals
  | single : PVal → FieldVals
  | multi : List PVal → FieldVals
deriving DecidableEq

/-! ## Python string primitives (ASCII scope)

Executable models of the Python `str` methods the shell relies on:
`split(" ")`, `strip()`, `startswith`, `endswith`, `count`, `replace`,
membership (`in`), `title()`, `isdigit()`, `int()`, `float()` parsing
and `splitlines()`. -/

/-- `s.split(" ")` — split on every single space character. -/
def pySplitSpaceAux : PStr → PStr → List PStr
  | [], cur => [cur.reverse]
  | c :: rest, cur =>
    if c = ' ' then cur.reverse :: pySplitSpaceAux rest []
    else pySplitSpaceAux rest (c :: cur)

def pySplitSpace (s : PStr) : List PStr := pySplitSpaceAux s []

/-- `s.strip()` — drop leading and trailing whitespace. -/
def pyStrip (s : PStr) : PStr :=
  ((s.dropWhile Char.isWhitespace).reverse.dropWhile Char.isWhitespace).reverse

/-- `[i for i in command.split(" ") if i.strip()]` — the tokenizer of
`App.parse_command`. -/
def pyTokenize (s : PStr) : List PStr :=
  (pySplitSpace s).filter (fun i => !(pyStrip i).isEmpty)

/-- Python `needle in hay` for strings (substring containment). -/
def pySubstr (needle : PStr) : PStr → Bool
  | [] => needle.isEmpty
  | c :: rest => needle.isPrefixOf (c :: rest) || pySubstr needle rest

/-- ASCII lower-casing of one character (model of `str.lower` per char). -/
def lowerChar (c : Char) : Char :=
  if 65 ≤ c.toNat ∧ c.toNat ≤ 90 then Char.ofNat (c.toNat + 32) else c

/-- ASCII upper-casing of one character. -/
def upperChar (c : Char) : Char :=
  if 97 ≤ c.toNat ∧ c.toNat ≤ 122 then Char.ofNat (c.toNat - 32) else c

/-- ASCII letter test. -/
def alphaChar (c : Char) : Bool :=
  (65 ≤ c.toNat && c.toNat ≤ 90) || (97 ≤ c.toNat && c.toNat ≤ 122)

def pyLower (s : PStr) : PStr := s.map lowerChar

/-- `s.title()` (ASCII): the first letter of every alphabetic run is
upper-cased, subsequent letters are lower-cased; other characters pass
through and restart a run. -/
def pyTitleAux : PStr → Bool → PStr
  | [], _ => []
  | c :: rest, prevAlpha =>
    (if alphaChar c then (if prevAlpha then lowerChar c else upperChar c) else c)
      :: pyTitleAux rest (alphaChar c)

def pyTitle (s : PStr) : PStr := pyTitleAux s false

/-- `s.isdigit()` — non-empty and all decimal digits (ASCII). -/
def pyIsdigit (s : PStr) : Bool := !s.isEmpty && s.all Char.isDigit

/-- `int(s)` on an all-digit string. -/
def digitsToNat (s : PStr) : Nat := s.foldl (fun acc c => acc * 10 + (c.toNat - 48)) 0

/-- Whether `float(s)` succeeds, modelling CPython's accepted grammar for
ASCII input without underscores: optional surrounding whitespace, an
optional sign, then either `inf`/`infinity`/`nan` (case-insensitive) or
`digits [. digits]` / `. digits` with an optional exponent. -/
def pyFloatDigitsDot (cs : PStr) : Bool × PStr :=
  let intPart := cs.takeWhile Char.isDigit
  let rest := cs.drop intPart.length
  match rest with
  | '.' :: r =>
    let fracPart := r.takeWhile Char.isDigit
    (!(intPart.isEmpty && fracPart.isEmpty), r.drop fracPart.length)
  | _ => (!intPart.isEmpty, rest)

def pyFloatExpDigits (cs : PStr) : Bool :=
  let cs := match cs with
    | '+' :: r => r
    | '-' :: r => r
    | r => r
  !cs.isEmpty && cs.all Char.isDigit

def pyFloatExpOk : PStr → Bool
  | [] => true
  | 'e' :: r => pyFloatExpDigits r
  | 'E' :: r => pyFloatExpDigits r
  | _ => false

def pyFloatOk (s : PStr) : Bool :=
  let t := pyStrip s
  let t := match t with
    | '+' :: r => r
    | '-' :: r => r
    | r => r
  let low := pyLower t
  if low = "inf".data || low = "infinity".data || low = "nan".data then true
  else
    let (ok, rest) := pyFloatDigitsDot t
    ok && pyFloatExpOk rest

/-- `s.splitlines()` restricted to the ASCII line boundaries `\n`, `\r`
and `\r\n`: boundaries are consumed, a trailing boundary adds no empty
final line. -/
def pySplitlinesAux : PStr → PStr → List PStr
  | [], cur => if cur.isEmpty then [] else [cur.reverse]
  | '\r' :: '\n' :: rest, cur => cur.reverse :: pySplitlinesAux rest []
  | '\r' :: rest, cur => cur.reverse :: pySplitlinesAux rest []
  | '\n' :: rest, cur => cur.reverse :: pySplitlinesAux rest []
  | c :: rest, cur => pySplitlinesAux rest (c :: cur)

def pySplitlines (s : PStr) : List PStr := pySplitlinesAux s []

/-- `sep.join(parts)`. -/
def pyJoin (sep : PStr) : List PStr → PStr
  | [] => []
  | [x] => x
  | x :: rest => x ++ sep ++ pyJoin sep rest

/-! ## `models.Filters` — the `include` / `exclude` pipe filters -/

/-- `Filters.filter_include`: keep exactly the lines of the (stringified)
data that contain the pattern, joined by newlines. -/
def filter_include (data : PStr) (inc : PStr) : PStr :=
  pyJoin ['\n'] ((pySplitlines data).filter (fun line => pySubstr inc line))

/-- `Filters.filter_exclude`: keep exactly the lines of the (stringified)
data that do not contain the pattern, joined by newlines. -/
def filter_exclude (data : PStr) (exc : PStr) : PStr :=
  pyJoin ['\n'] ((pySplitlines data).filter (fun line => !pySubstr exc line))

/-- The composed behaviour that the specification ascribes to
`include p | exclude q`: exactly the lines of the original input that
contain `p` and do not contain `q`, joined by newlines. -/
def includeExcludeSpec (data p q : PStr) : PStr :=
  pyJoin ['\n'] ((pySplitlines data).filter (fun l => pySubstr p l && !pySubstr q l))

/-! ## Lemmas about `splitlines` / `join` used by the filter claims -/

lemma pySplitlinesAux_cons_lf (x cur : PStr) :
    pySplitlinesAux ('\n' :: x) cur = cur.reverse :: pySplitlinesAux x [] := rfl

lemma pySplitlinesAux_cons_other (c : Char) (x cur : PStr)
    (h1 : c ≠ '\r') (h2 : c ≠ '\n') :
    pySplitlinesAux (c :: x) cur = pySplitlinesAux x (c :: cur) := by
  simp [pySplitlinesAux, h1, h2]

/-- Every line produced by `splitlines` is free of line-boundary characters. -/
lemma pySplitlinesAux_boundaryFree :
    ∀ (s cur : PStr), (∀ c ∈ cur, c ≠ '\n' ∧ c ≠ '\r') →
      ∀ l ∈ pySplitlinesAux s cur, ∀ c ∈ l, c ≠ '\n' ∧ c ≠ '\r' := by
  intro s cur
  induction s, cur using pySplitlinesAux.induct with
  | case1 cur hcur =>
    intro _ l hl
    simp [pySplitlinesAux, hcur] at hl
  | case2 cur hcur =>
    intro h l hl
    simp [pySplitlinesAux, hcur] at hl
    subst hl
    intro c hc
    exact h c (List.mem_reverse.mp hc)
  | case3 rest cur ih =>
    intro h l hl
    rcases List.mem_cons.mp hl with h1 | h1
    · subst h1; intro c hc; exact h c (List.mem_reverse.mp hc)
    · exact ih (by simp) l h1
  | case4 rest cur hne ih =>
    intro h l hl
    have : pySplitlinesAux ('\r' :: rest) cur = cur.reverse :: pySplitlinesAux rest [] := by
      cases rest with
      | nil => rfl
      | cons r rs =>
        by_cases hr : r = '\n'
        · exact absurd rfl (by subst hr; exact fun h' => hne rs h')
        · simp [pySplitlinesAux, hr]
    rw [this] at hl
    rcases List.mem_cons.mp hl with h1 | h1
    · subst h1; intro c hc; exact h c (List.mem_reverse.mp hc)
    · exact ih (by simp) l h1
  | case5 rest cur ih =>
    intro h l hl
    rw [pySplitlinesAux_cons_lf] at hl
    rcases List.mem_cons.mp hl with h1 | h1
    · subst h1; intro c hc; exact h c (List.mem_reverse.mp hc)
    · exact ih (by simp) l h1
  | case6 c rest cur hcr hr hn ih =>
    intro h l hl
    rw [pySplitlinesAux_cons_other c rest cur (fun hh => hr hh) (fun hh => hn hh)] at hl
    refine ih ?_ l hl
    intro d hd
    rcases List.mem_cons.mp hd with h1 | h1
    · subst h1; exact ⟨fun hh => hn hh, fun hh => hr hh⟩
    · exact h d h1

lemma pySplitlines_boundaryFree (s : PStr) :
    ∀ l ∈ pySplitlines s, ∀ c ∈ l, c ≠ '\n' ∧ c ≠ '\r' :=
  pySplitlinesAux_boundaryFree s [] (by simp)

/-- On boundary-free input, `splitlines` yields the single accumulated line. -/
lemma pySplitlinesAux_no_boundary :
    ∀ (x cur : PStr), (∀ c ∈ x, c ≠ '\n' ∧ c ≠ '\r') →
      pySplitlinesAux x cur =
        if cur = [] ∧ x = [] then [] else [cur.reverse ++ x] := by
  intro x
  induction x with
  | nil =>
    intro cur _
    by_cases hc : cur = []
    · subst hc; simp [pySplitlinesAux]
    · simp [pySplitlinesAux, hc, List.isEmpty_iff]
  | cons c x ih =>
    intro cur h
    obtain ⟨hn, hr⟩ := h c (by simp)
    rw [pySplitlinesAux_cons_other c x cur hr hn]
    rw [ih (c :: cur) (fun d hd => h d (by simp [hd]))]
    simp

/-- `splitlines` splits off the boundary-free prefix before a `'\n'`. -/
lemma pySplitlinesAux_split_at_lf :
    ∀ (x rest cur : PStr), (∀ c ∈ x, c ≠ '\n' ∧ c ≠ '\r') →
      pySplitlinesAux (x ++ '\n' :: rest) cur =
        (cur.reverse ++ x) :: pySplitlinesAux rest [] := by
  intro x
  induction x with
  | nil =>
    intro rest cur _
    simp [pySplitlinesAux_cons_lf]
  | cons c x ih =>
    intro rest cur h
    obtain ⟨hn, hr⟩ := h c (by simp)
    rw [List.cons_append, pySplitlinesAux_cons_other c _ cur hr hn]
    rw [ih rest (c :: cur) (fun d hd => h d (by simp [hd]))]
    simp

/-- Round trip: joining non-empty boundary-free lines with `'\n'` and
splitting again restores the very same lines. -/
lemma pySplitlines_pyJoin (ls : List PStr)
    (h : ∀ l ∈ ls, l ≠ [] ∧ ∀ c ∈ l, c ≠ '\n' ∧ c ≠ '\r') :
    pySplitlines (pyJoin ['\n'] ls) = ls := by
  induction ls with
  | nil => rfl
  | cons x ls ih =>
    obtain ⟨hx, hbf⟩ := h x (by simp)
    cases ls with
    | nil =>
      show pySplitlinesAux x [] = [x]
      rw [pySplitlinesAux_no_boundary x [] hbf]
      simp [hx]
    | cons y ls' =>
      have hj : pyJoin ['\n'] (x :: y :: ls') = x ++ '\n' :: pyJoin ['\n'] (y :: ls') := by
        show x ++ ['\n'] ++ pyJoin ['\n'] (y :: ls') = _
        simp
      rw [pySplitlines, hj, pySplitlinesAux_split_at_lf x _ [] hbf]
      have := ih (fun l hl => h l (by simp [hl]))
      rw [pySplitlines] at this
      simpa using this

lemma pySubstr_ne_nil (p l : PStr) (hp : p ≠ []) (hl : pySubstr p l = true) :
    l ≠ [] := by
  intro h
  subst h
  simp [pySubstr, List.isEmpty_iff] at hl
  exact hp hl

/-- A condensed multi-line text with the shape of the test shell's
`show joke` output (blank lines between sentences, a closing line
containing "End"). -/
def jokeText : PStr :=
  ("\nWhy did the engineer carry a ladder?\n\nTo reach the cloud!\n\nThe End.\n").data

/-- Claim C9, counterexample: with an empty include pattern and input made
of two empty lines, piping through `include` and then `exclude` does not
return the include-and-not-exclude lines of the original input — the
join/resplit between the two filters collapses consecutive empty lines. -/
theorem claim_C9_counterexample :
    filter_exclude (filter_include ("\n\n").data []) ("End").data ≠
      includeExcludeSpec ("\n\n").data [] ("End").data := by
  decide

/-- Claim C9 (amended): whenever the include pattern is non-empty (so every
retained line is non-empty), `include p` followed by `exclude q` yields
exactly the lines of the stringified input that contain `p` and do not
contain `q`, joined by newlines; in particular the joke filtered through
`include Why | exclude End` returns exactly its "Why" line. -/
theorem claim_C9 :
    (∀ d p q : PStr, p ≠ [] →
      filter_exclude (filter_include d p) q = includeExcludeSpec d p q) ∧
    filter_exclude (filter_include jokeText ("Why").data) ("End").data =
      ("Why did the engineer carry a ladder?").data := by
  constructor
  · intro d p q hp
    unfold filter_exclude filter_include includeExcludeSpec
    rw [pySplitlines_pyJoin]
    · rw [List.filter_filter]
      congr 1
      apply List.filter_congr
      intro l _
      rw [Bool.and_comm]
    · intro l hl
      have hmem := List.mem_filter.mp hl
      exact ⟨pySubstr_ne_nil p l hp hmem.2,
        pySplitlines_boundaryFree d l hmem.1⟩
  · decide

/-- Claim C9, witness: the amended equality applied at a concrete input. -/
theorem claim_C9_witness :
    filter_exclude (filter_include ("a\nb").data ("a").data) ("b").data =
      includeExcludeSpec ("a\nb").data ("a").data ("b").data :=
  claim_C9.1 ("a\nb").data ("a").data ("b").data (by decide)

/-! ## Character-level facts for `title()` versus `lower()` -/

lemma char_toNat_inj (a b : Char) (h : a.toNat = b.toNat) : a = b := by
  have := congrArg Char.ofNat h
  rwa [Char.ofNat_toNat, Char.ofNat_toNat] at this

lemma char_toNat_ofNat (n : Nat) (h : n < 1000) : (Char.ofNat n).toNat = n := by
  unfold Char.ofNat
  split
  · rfl
  · next h2 => exact absurd (Or.inl (by omega)) h2

lemma lowerChar_toNat (c : Char) :
    (lowerChar c).toNat =
      if 65 ≤ c.toNat ∧ c.toNat ≤ 90 then c.toNat + 32 else c.toNat := by
  unfold lowerChar
  split
  · next h => rw [char_toNat_ofNat _ (by omega)]
  · rfl

lemma upperChar_toNat (c : Char) :
    (upperChar c).toNat =
      if 97 ≤ c.toNat ∧ c.toNat ≤ 122 then c.toNat - 32 else c.toNat := by
  unfold upperChar
  split
  · next h => rw [char_toNat_ofNat _ (by omega)]
  · rfl

lemma alphaChar_iff (c : Char) :
    alphaChar c = true ↔
      (65 ≤ c.toNat ∧ c.toNat ≤ 90) ∨ (97 ≤ c.toNat ∧ c.toNat ≤ 122) := by
  simp [alphaChar, Bool.or_eq_true, Bool.and_eq_true, decide_eq_true_iff]

/-- First character of a titled word: producing an upper-case target letter
is the same as agreeing with it up to case. -/
lemma titleFirstChar (c t : Char) (ht : 65 ≤ t.toNat ∧ t.toNat ≤ 90) :
    (if alphaChar c then upperChar c else c) = t ↔ lowerChar c = lowerChar t := by
  by_cases ha : alphaChar c = true
  · rcases (alphaChar_iff c).mp ha with hu | hl
    · rw [if_pos ha]
      constructor
      · intro h
        have hn := congrArg Char.toNat h
        rw [upperChar_toNat, if_neg (by omega)] at hn
        apply char_toNat_inj
        rw [lowerChar_toNat, lowerChar_toNat, if_pos hu, if_pos ht]
        omega
      · intro h
        have hn := congrArg Char.toNat h
        rw [lowerChar_toNat, lowerChar_toNat, if_pos hu, if_pos ht] at hn
        apply char_toNat_inj
        rw [upperChar_toNat, if_neg (by omega)]
        omega
    · rw [if_pos ha]
      constructor
      · intro h
        have hn := congrArg Char.toNat h
        rw [upperChar_toNat, if_pos hl] at hn
        apply char_toNat_inj
        rw [lowerChar_toNat, lowerChar_toNat, if_neg (by omega), if_pos ht]
        omega
      · intro h
        have hn := congrArg Char.toNat h
        rw [lowerChar_toNat, lowerChar_toNat, if_neg (by omega), if_pos ht] at hn
        apply char_toNat_inj
        rw [upperChar_toNat, if_pos hl]
        omega
  · rw [if_neg ha]
    constructor
    · intro h
      exact absurd ((alphaChar_iff c).mpr (by subst h; exact Or.inl ht)) ha
    · intro h
      have hn := congrArg Char.toNat h
      rw [lowerChar_toNat, lowerChar_toNat, if_pos ht] at hn
      have hc : ¬(65 ≤ c.toNat ∧ c.toNat ≤ 90) := by
        intro hcc
        exact absurd ((alphaChar_iff c).mpr (Or.inl hcc)) ha
      rw [if_neg hc] at hn
      exact absurd ((alphaChar_iff c).mpr (Or.inr (by omega))) ha

/-- Non-first character of a titled word: producing a lower-case target
letter is the same as agreeing with it up to case. -/
lemma titleRestChar (c u : Char) (hu : 97 ≤ u.toNat ∧ u.toNat ≤ 122) :
    (if alphaChar c then lowerChar c else c) = u ↔ lowerChar c = u := by
  by_cases ha : alphaChar c = true
  · rw [if_pos ha]
  · rw [if_neg ha]
    constructor
    · intro h
      exact absurd ((alphaChar_iff c).mpr (by subst h; exact Or.inr hu)) ha
    · intro h
      have hc : ¬(65 ≤ c.toNat ∧ c.toNat ≤ 90) := by
        intro hcc
        exact absurd ((alphaChar_iff c).mpr (Or.inl hcc)) ha
      unfold lowerChar at h
      rwa [if_neg hc] at h

/-- Agreement of `lowerChar c` with an upper-range target's lowering forces
`c` to be a letter. -/
lemma alpha_of_lowerChar_eq (c : Char) (d : Char)
    (hd : 97 ≤ d.toNat ∧ d.toNat ≤ 122) (h : lowerChar c = d) :
    alphaChar c = true := by
  have hn := congrArg Char.toNat h
  rw [lowerChar_toNat] at hn
  rcases Decidable.em (65 ≤ c.toNat ∧ c.toNat ≤ 90) with hc | hc
  · exact (alphaChar_iff c).mpr (Or.inl hc)
  · rw [if_neg hc] at hn
    exact (alphaChar_iff c).mpr (Or.inr (by omega))

/-- Head case for the first-character transform: success forces `c` to be a
letter. -/
lemma alpha_of_titleFirst (c t : Char) (ht : 65 ≤ t.toNat ∧ t.toNat ≤ 90)
    (h : (if alphaChar c then upperChar c else c) = t) : alphaChar c = true := by
  by_cases ha : alphaChar c = true
  · exact ha
  · rw [if_neg ha] at h
    exact absurd ((alphaChar_iff c).mpr (by subst h; exact Or.inl ht)) ha

lemma pyTitle_cons (c : Char) (s : PStr) :
    pyTitle (c :: s) =
      (if alphaChar c then upperChar c else c) :: pyTitleAux s (alphaChar c) := by
  simp [pyTitle, pyTitleAux]

lemma pyTitleAux_cons_true (c : Char) (s : PStr) :
    pyTitleAux (c :: s) true =
      (if alphaChar c then lowerChar c else c) :: pyTitleAux s (alphaChar c) := by
  simp [pyTitleAux]

/-- Tail of a titled word against an all-lower-case target word. -/
lemma pyTitleAux_true_eq (s : PStr) :
    ∀ us : PStr, (∀ u ∈ us, 97 ≤ u.toNat ∧ u.toNat ≤ 122) →
      (pyTitleAux s true = us ↔ pyLower s = us) := by
  induction s with
  | nil => intro us _; simp [pyTitleAux, pyLower]
  | cons c s ih =>
    intro us hus
    cases us with
    | nil => simp [pyTitleAux_cons_true, pyLower]
    | cons u us' =>
      have hu := hus u (by simp)
      have hrest := ih us' (fun d hd => hus d (by simp [hd]))
      rw [pyTitleAux_cons_true]
      constructor
      · intro h
        obtain ⟨h1, h2⟩ := List.cons.injEq .. ▸ h
        have hlc : lowerChar c = u := (titleRestChar c u hu).mp h1
        have ha : alphaChar c = true := alpha_of_lowerChar_eq c u hu hlc
        rw [ha] at h2
        simp only [pyLower, List.map_cons]
        exact List.cons.injEq .. ▸ ⟨hlc, hrest.mp h2⟩
      · intro h
        simp only [pyLower, List.map_cons] at h
        obtain ⟨h1, h2⟩ := List.cons.injEq .. ▸ h
        have ha : alphaChar c = true := alpha_of_lowerChar_eq c u hu h1
        rw [ha]
        show lowerChar c :: pyTitleAux s true = u :: us'
        exact List.cons.injEq .. ▸ ⟨h1, hrest.mpr h2⟩

/-- A string titles to a word `t :: us` (upper-case head, lower-case tail)
exactly when it agrees with that word up to ASCII case. -/
lemma pyTitle_eq_word (s : PStr) (t : Char) (us : PStr)
    (ht : 65 ≤ t.toNat ∧ t.toNat ≤ 90)
    (hus : ∀ u ∈ us, 97 ≤ u.toNat ∧ u.toNat ≤ 122) :
    pyTitle s = t :: us ↔ pyLower s = lowerChar t :: us := by
  have hlt : 97 ≤ (lowerChar t).toNat ∧ (lowerChar t).toNat ≤ 122 := by
    rw [lowerChar_toNat, if_pos ht]; omega
  cases s with
  | nil => simp [pyTitle, pyTitleAux, pyLower]
  | cons c s =>
    rw [pyTitle_cons]
    constructor
    · intro h
      obtain ⟨h1, h2⟩ := List.cons.injEq .. ▸ h
      have ha : alphaChar c = true := alpha_of_titleFirst c t ht h1
      have hlc : lowerChar c = lowerChar t := (titleFirstChar c t ht).mp h1
      rw [ha] at h2
      simp only [pyLower, List.map_cons]
      exact List.cons.injEq .. ▸
        ⟨hlc, (pyTitleAux_true_eq s us hus).mp h2⟩
    · intro h
      simp only [pyLower, List.map_cons] at h
      obtain ⟨h1, h2⟩ := List.cons.injEq .. ▸ h
      have ha : alphaChar c = true := alpha_of_lowerChar_eq c (lowerChar t) hlt h1
      have hh := (titleFirstChar c t ht).mpr h1
      rw [ha] at hh
      rw [ha]
      show upperChar c :: pyTitleAux s true = t :: us
      exact List.cons.injEq .. ▸
        ⟨hh, (pyTitleAux_true_eq s us hus).mpr h2⟩

/-! ## Value coercion (`App._save_collected_value`) -/

/-- The value-mutation ladder of `App._save_collected_value` for string
values of non-JSON fields, exactly in source order: `title()` comparison
against `"False"`, `"True"`, `"None"`, then `isdigit()`, then `float()` for
strings containing a dot (a failed float parse keeps the string). -/
def coerceStr (value : PStr) : PVal :=
  if pyTitle value = ("False").data then PVal.pybool false
  else if pyTitle value = ("True").data then PVal.pybool true
  else if pyTitle value = ("None").data then PVal.pynone
  else if pyIsdigit value then PVal.pyint (digitsToNat value)
  else if value.contains '.' then
    (if pyFloatOk value then PVal.pyfloat value else PVal.str value)
  else PVal.str value

/-- `isinstance(value, str)` guard of the mutation ladder: only string
values are coerced. -/
def coerceVal : PVal → PVal
  | PVal.str s => coerceStr s
  | v => v

/-- The coercion ladder as the specification words it: case-insensitive
`"true"`/`"false"` to booleans, case-insensitive `"none"` to null, all-digit
strings to integers, dot-containing float-parseable strings to floats,
anything else kept as the unchanged string. -/
def coerceSpecStr (value : PStr) : PVal :=
  if pyLower value = ("true").data then PVal.pybool true
  else if pyLower value = ("false").data then PVal.pybool false
  else if pyLower value = ("none").data then PVal.pynone
  else if pyIsdigit value then PVal.pyint (digitsToNat value)
  else if value.contains '.' && pyFloatOk value then PVal.pyfloat value
  else PVal.str value

lemma coerceStr_eq_spec (v : PStr) : coerceStr v = coerceSpecStr v := by
  have hF : (pyTitle v = ("False").data) ↔ (pyLower v = ("false").data) := by
    have := pyTitle_eq_word v 'F' ("alse").data (by decide) (by decide)
    simpa [show lowerChar 'F' = 'f' by decide] using this
  have hT : (pyTitle v = ("True").data) ↔ (pyLower v = ("true").data) := by
    have := pyTitle_eq_word v 'T' ("rue").data (by decide) (by decide)
    simpa [show lowerChar 'T' = 't' by decide] using this
  have hN : (pyTitle v = ("None").data) ↔ (pyLower v = ("none").data) := by
    have := pyTitle_eq_word v 'N' ("one").data (by decide) (by decide)
    simpa [show lowerChar 'N' = 'n' by decide] using this
  unfold coerceStr coerceSpecStr
  simp only [hF, hT, hN]
  by_cases h1 : pyLower v = ("false").data <;>
    by_cases h2 : pyLower v = ("true").data <;>
      simp only [h1, h2, if_true, if_false, if_pos, if_neg, not_false_iff] <;>
        first
          | (exfalso; rw [h1] at h2; exact absurd h2 (by decide))
          | (by_cases h4 : pyIsdigit v = true <;>
              by_cases h5 : v.contains '.' = true <;>
                by_cases h6 : pyFloatOk v = true <;>
                  simp [h4, h5, h6])

/-! ## The pydantic model tree

A shallow embedding of the schema objects `App` works against: pydantic
model classes with their `model_fields` dictionaries of `FieldInfo`
entries, plus the `PicleConfig` attributes the parser consults. -/

mutual
/-- `PicleConfig.pipe`: absent / `None`, the string `"self"`, or a
reference to another model class. -/
inductive PipeCfg where
  | nopipe : PipeCfg
  | selfP : PipeCfg
  | target : PModel → PipeCfg

/-- A field's annotation as the parser discriminates it: a plain scalar
type, an `Enum` class (variant values modelled as strings), a nested model
class (`ModelMetaclass`), or `Callable`. -/
inductive PAnn where
  | scalar : PAnn
  | enumA : List PStr → PAnn
  | modelA : PModel → PAnn
  | callableA : PAnn

/-- `pydantic.fields.FieldInfo`: alias, serialization alias, annotation,
whether the field metadata marks it as a `Json` field, the
`json_schema_extra["presence"]` entry if any, the value `get_default()`
returns (`pynone` when there is no default), and `is_required()`. -/
inductive PField where
  | mk : Option PStr → Option PStr → PAnn → Bool → Option PVal → PVal → Bool → PField

/-- A pydantic model class: its name (standing in for class identity, and
assumed unique per application), `model_fields` (name-keyed, insertion
ordered), `PicleConfig.pipe` and `PicleConfig.subshell`. -/
inductive PModel where
  | mk : PStr → List (PStr × PField) → PipeCfg → Bool → PModel
end

def PField.alias : PField → Option PStr
  | PField.mk a _ _ _ _ _ _ => a

def PField.serAlias : PField → Option PStr
  | PField.mk _ sa _ _ _ _ _ => sa

def PField.fAnn : PField → PAnn
  | PField.mk _ _ ann _ _ _ _ => ann

def PField.isJson : PField → Bool
  | PField.mk _ _ _ j _ _ _ => j

def PField.presence : PField → Option PVal
  | PField.mk _ _ _ _ p _ _ => p

def PField.defaultVal : PField → PVal
  | PField.mk _ _ _ _ _ d _ => d

def PField.required : PField → Bool
  | PField.mk _ _ _ _ _ _ r => r

/-- Replace a field's annotation (used to rebuild the tree functionally
where the Python code mutates a nested `model_fields` dict in place). -/
def PField.withAnn : PField → PAnn → PField
  | PField.mk a sa _ j p d r, ann => PField.mk a sa ann j p d r

def PModel.mname : PModel → PStr
  | PModel.mk n _ _ _ => n

def PModel.fields : PModel → List (PStr × PField)
  | PModel.mk _ fs _ _ => fs

def PModel.pipe : PModel → PipeCfg
  | PModel.mk _ _ pc _ => pc

def PModel.subshell : PModel → Bool
  | PModel.mk _ _ _ s => s

instance : Inhabited PModel := ⟨PModel.mk [] [] PipeCfg.nopipe false⟩

instance : Inhabited PField :=
  ⟨PField.mk Option.none Option.none PAnn.scalar false Option.none PVal.pynone false⟩

/-! ## Python dictionaries over string keys -/

/-- Key lookup in an insertion-ordered dict (association list). -/
def pyLookup {α : Type} (k : PStr) : List (PStr × α) → Option α
  | [] => Option.none
  | kv :: rest => if kv.1 = k then some kv.2 else pyLookup k rest

/-- `d[k] = v` on an insertion-ordered dict: update in place if the key
exists, else append. -/
def dictSet {α : Type} (d : List (PStr × α)) (k : PStr) (v : α) : List (PStr × α) :=
  if (pyLookup k d).isSome then d.map (fun kv => if kv.1 = k then (k, v) else kv)
  else d ++ [(k, v)]

/-- `a.update(b)` / `{**a, **b}` — later keys win. -/
def dictUpdate {α : Type} (a b : List (PStr × α)) : List (PStr × α) :=
  b.foldl (fun acc kv => dictSet acc kv.1 kv.2) a

/-- `d.pop(k, None)`. -/
def dictRemove {α : Type} (d : List (PStr × α)) (k : PStr) : List (PStr × α) :=
  d.filter (fun kv => kv.1 ≠ k)

/-! ## Collected fields and `App._save_collected_value` -/

/-- One collected-field dictionary of `App.parse_command`:
`{"name": ..., "values": ..., "field": ...}`. -/
structure FieldSt where
  name : PStr
  values : FieldVals
  field : PField

/-- Python `old += value`; the parser only ever concatenates strings here
(other combinations would raise `TypeError` and are unreachable from the
parser's call sites). -/
def pyAddVal : PVal → PVal → PVal
  | PVal.str a, PVal.str b => PVal.str (a ++ b)
  | a, _ => a

/-- `App._save_collected_value`: JSON fields accumulate raw strings;
other fields coerce string values and accumulate into a scalar, then a
list.  (A JSON field never holds a `multi` value: the parser joins
bracketed tokens into one string before saving.) -/
def save_collected_value (f : FieldSt) (value : PVal) (replace : Bool) : FieldSt :=
  if f.field.isJson then
    match f.values with
    | FieldVals.unset => { f with values := FieldVals.single value }
    | FieldVals.single old => { f with values := FieldVals.single (pyAddVal old value) }
    | FieldVals.multi xs => { f with values := FieldVals.multi xs }
  else
    let value := coerceVal value
    match f.values, replace with
    | FieldVals.unset, _ => { f with values := FieldVals.single value }
    | _, true => { f with values := FieldVals.single value }
    | FieldVals.multi xs, false => { f with values := FieldVals.multi (xs ++ [value]) }
    | FieldVals.single old, false => { f with values := FieldVals.multi [old, value] }

/-- `App.extract_model_defaults`: collect `name → default` for every
field, skipping `Callable` annotations, required fields and `None`
defaults. -/
def extract_model_defaults (m : PModel) : List (PStr × PVal) :=
  m.fields.foldl
    (fun acc nf =>
      match nf.2.fAnn with
      | PAnn.callableA => acc
      | _ =>
        if nf.2.required then acc
        else
          match nf.2.defaultVal with
          | PVal.pynone => acc
          | d => dictSet acc nf.1 d)
    []

/-! ## `App.model_remove` -/

inductive PyErr where
  | keyErr : PyErr
  | attrErr : PyErr
deriving DecidableEq

/-- The descent loop of `App.model_remove`: walk `path` through
`model_fields`, popping the final segment's entry from its parent's
`model_fields`; a missing segment raises `KeyError`, and descending
through a non-model annotation makes the next membership test raise
`AttributeError`. -/
def model_remove_aux : List PStr → PModel → Except PyErr PModel
  | [], m => Except.ok m
  | name :: rest, PModel.mk n fs pc sub =>
    match pyLookup name fs with
    | Option.none => Except.error PyErr.keyErr
    | some f =>
      if rest.isEmpty then
        Except.ok (PModel.mk n (fs.filter (fun kv => kv.1 ≠ name)) pc sub)
      else
        match f.fAnn with
        | PAnn.modelA sub2 =>
          (model_remove_aux rest sub2).map (fun m2 =>
            PModel.mk n
              (fs.map (fun kv =>
                if kv.1 = name then (name, kv.2.withAnn (PAnn.modelA m2)) else kv))
              pc sub)
        | _ => Except.error PyErr.attrErr

/-- `App.model_remove`: the method's return type annotation is `None` and
its body contains no `return` statement, so the caller always receives
`None` alongside the (mutated) root tree. -/
def model_remove (root : PModel) (path : List PStr) : Except PyErr (PModel × PVal) :=
  (model_remove_aux path root).map (fun m => (m, PVal.pynone))

/-- Resolve a path to the `FieldInfo` entry it denotes, descending through
model annotations. -/
def model_lookup : List PStr → PModel → Option PField
  | [], _ => Option.none
  | [name], m => pyLookup name m.fields
  | name :: rest, m =>
    match pyLookup name m.fields with
    | Option.none => Option.none
    | some f =>
      match f.fAnn with
      | PAnn.modelA sub => model_lookup rest sub
      | _ => Option.none

/-- Claim C5: for tokens bound as values to open scalar (non-JSON) fields,
the code's coercion ladder agrees with the specification's ladder —
case-insensitive `"true"`/`"false"` to booleans, case-insensitive
`"none"` to null, all-digit strings to integers, dot-containing
float-parseable strings to floats, everything else kept as the unchanged
string — and a fresh field binds exactly the coerced value. -/
theorem claim_C5 :
    (∀ s : PStr, coerceStr s = coerceSpecStr s) ∧
    (∀ (f : FieldSt) (s : PStr), f.field.isJson = false →
      f.values = FieldVals.unset →
      (save_collected_value f (PVal.str s) false).values =
        FieldVals.single (coerceSpecStr s)) := by
  refine ⟨coerceStr_eq_spec, ?_⟩
  intro f s hj hv
  simp [save_collected_value, hj, hv, coerceVal, coerceStr_eq_spec]

/-- Claim C5, witness: binding the token `"123"` to a fresh scalar field
stores the coerced integer. -/
theorem claim_C5_witness :
    (save_collected_value
      ⟨("x").data, FieldVals.unset,
        PField.mk Option.none Option.none PAnn.scalar false Option.none PVal.pynone false⟩
      (PVal.str ("123").data) false).values =
      FieldVals.single (coerceSpecStr ("123").data) :=
  claim_C5.2 _ ("123").data rfl rfl

/-! ## Lemmas for `model_remove` -/

lemma lookup_filter_self (fs : List (PStr × PField)) (k : PStr) :
    pyLookup k (fs.filter (fun kv => kv.1 ≠ k)) = Option.none := by
  induction fs with
  | nil => rfl
  | cons kv fs ih =>
    by_cases h : kv.1 = k
    · simpa [List.filter_cons, h] using ih
    · simpa [List.filter_cons, h, pyLookup] using ih

lemma lookup_map_replace (fs : List (PStr × PField)) (k : PStr)
    (g : PField → PField) (f : PField) (h : pyLookup k fs = some f) :
    pyLookup k (fs.map (fun kv => if kv.1 = k then (k, g kv.2) else kv)) =
      some (g f) := by
  induction fs with
  | nil => simp [pyLookup] at h
  | cons kv fs ih =>
    by_cases hk : kv.1 = k
    · simp only [pyLookup, if_pos hk] at h
      simp only [List.map_cons, if_pos hk, pyLookup]
      simp at h
      simp [h]
    · simp only [pyLookup, if_neg hk] at h
      simp only [List.map_cons, if_neg hk, pyLookup, if_neg hk]
      exact ih h

lemma withAnn_fAnn (f : PField) (a : PAnn) : (f.withAnn a).fAnn = a := by
  cases f; rfl

lemma model_lookup_cons_cons (name r : PStr) (rs : List PStr) (m : PModel) :
    model_lookup (name :: r :: rs) m =
      match pyLookup name m.fields with
      | Option.none => Option.none
      | some f =>
        match f.fAnn with
        | PAnn.modelA sub => model_lookup (r :: rs) sub
        | _ => Option.none := rfl

/-- Successful removal: if the path resolves, `model_remove_aux` succeeds
and afterwards the path no longer resolves. -/
lemma model_remove_aux_success :
    ∀ (path : List PStr) (root : PModel), path ≠ [] →
      (model_lookup path root).isSome →
      ∃ root2, model_remove_aux path root = Except.ok root2 ∧
        model_lookup path root2 = Option.none := by
  intro path
  induction path with
  | nil => intro root h; exact absurd rfl h
  | cons name rest ih =>
    intro root _ hsome
    obtain ⟨n, fs, pc, sub⟩ := root
    cases rest with
    | nil =>
      simp only [model_lookup, PModel.fields] at hsome
      obtain ⟨f, hf⟩ := Option.isSome_iff_exists.mp hsome
      refine ⟨PModel.mk n (fs.filter (fun kv => kv.1 ≠ name)) pc sub, ?_, ?_⟩
      · simp [model_remove_aux, hf]
      · simpa [model_lookup, PModel.fields] using lookup_filter_self fs name
    | cons r rs =>
      rw [model_lookup_cons_cons] at hsome
      simp only [PModel.fields] at hsome
      rcases hlk : pyLookup name fs with _ | f
      · simp only [hlk] at hsome; simp at hsome
      · simp only [hlk] at hsome
        rcases hann : f.fAnn with _ | vs | sub2 | _
        all_goals simp only [hann] at hsome
        case modelA =>
          obtain ⟨sub2', haux, hlook⟩ := ih sub2 (by simp) hsome
          refine ⟨PModel.mk n
            (fs.map (fun kv =>
              if kv.1 = name then (name, kv.2.withAnn (PAnn.modelA sub2')) else kv))
            pc sub, ?_, ?_⟩
          · simp [model_remove_aux, hlk, hann, haux, Except.map]
          · rw [model_lookup_cons_cons]
            simp only [PModel.fields]
            rw [lookup_map_replace fs name
              (fun x => x.withAnn (PAnn.modelA sub2')) f hlk]
            simp only [withAnn_fAnn]
            exact hlook
        all_goals simp at hsome

/-- Failed removal: if the path does not resolve, `model_remove_aux`
raises (`KeyError` for a missing segment, `AttributeError` after
descending through a non-model annotation). -/
lemma model_remove_aux_failure :
    ∀ (path : List PStr) (root : PModel), path ≠ [] →
      model_lookup path root = Option.none →
      ∃ e, model_remove_aux path root = Except.error e := by
  intro path
  induction path with
  | nil => intro root h; exact absurd rfl h
  | cons name rest ih =>
    intro root _ hnone
    obtain ⟨n, fs, pc, sub⟩ := root
    rcases hlk : pyLookup name fs with _ | f
    · cases rest with
      | nil => exact ⟨PyErr.keyErr, by simp [model_remove_aux, hlk]⟩
      | cons r rs => exact ⟨PyErr.keyErr, by simp [model_remove_aux, hlk]⟩
    · cases rest with
      | nil =>
        simp only [model_lookup, PModel.fields, hlk] at hnone
        simp at hnone
      | cons r rs =>
        rw [model_lookup_cons_cons] at hnone
        simp only [PModel.fields] at hnone
        simp only [hlk] at hnone
        rcases hann : f.fAnn with _ | vs | sub2 | _
        all_goals simp only [hann] at hnone
        case modelA =>
          obtain ⟨e, haux⟩ := ih sub2 (by simp) hnone
          exact ⟨e, by simp [model_remove_aux, hlk, hann, haux, Except.map]⟩
        all_goals
          exact ⟨PyErr.attrErr, by simp [model_remove_aux, hlk, hann]⟩

/-- A one-field root model used as concrete input for `model_remove`. -/
def demoRemoveRoot : PModel :=
  PModel.mk ("Root").data
    [(("a").data,
      PField.mk Option.none Option.none PAnn.scalar false Option.none PVal.pynone false)]
    PipeCfg.nopipe false

/-- Claim C8, counterexample: removing the existing path `["a"]` detaches
the node, but the caller receives `None` — `model_remove` has no `return`
statement — not the removed node. -/
theorem claim_C8_counterexample :
    model_remove demoRemoveRoot [("a").data] =
      Except.ok (PModel.mk ("Root").data [] PipeCfg.nopipe false, PVal.pynone) := by
  rfl

/-- Claim C8 (amended): for a non-empty path that resolves, `model_remove`
detaches the node at that path (the path no longer resolves afterwards)
and returns `None` to the caller; for a non-empty path that does not
resolve it raises an error. -/
theorem claim_C8 :
    (∀ (root : PModel) (path : List PStr), path ≠ [] →
      (model_lookup path root).isSome →
      ∃ root2, model_remove root path = Except.ok (root2, PVal.pynone) ∧
        model_lookup path root2 = Option.none) ∧
    (∀ (root : PModel) (path : List PStr), path ≠ [] →
      model_lookup path root = Option.none →
      ∃ e, model_remove root path = Except.error e) := by
  constructor
  · intro root path hne hsome
    obtain ⟨root2, haux, hlook⟩ := model_remove_aux_success path root hne hsome
    exact ⟨root2, by simp [model_remove, haux, Except.map], hlook⟩
  · intro root path hne hnone
    obtain ⟨e, haux⟩ := model_remove_aux_failure path root hne hnone
    exact ⟨e, by simp [model_remove, haux, Except.map]⟩

/-- Claim C8, witness: removal at the concrete root succeeds and clears
the path, and removal of a missing path errors. -/
theorem claim_C8_witness :
    (∃ root2, model_remove demoRemoveRoot [("a").data] =
        Except.ok (root2, PVal.pynone) ∧
      model_lookup [("a").data] root2 = Option.none) ∧
    (∃ e, model_remove demoRemoveRoot [("zz").data] = Except.error e) :=
  ⟨claim_C8.1 demoRemoveRoot [("a").data] (by decide) (by rfl),
   claim_C8.2 demoRemoveRoot [("zz").data] (by decide) (by rfl)⟩

/-! ## The command parser `App.parse_command`

The Python loop mutates a web of aliased dictionaries: `ret` (list of
pipe segments), `models` (the current segment, always the last entry of
`ret`), `current_model` (always the last frame of `models`) and
`current_field` (a dictionary aliased into some frame's `fields` list —
possibly a frame of an earlier segment).  The embedding keeps `ret` as
the single store and addresses `current_field` by
`(segment, frame, field)` indices, which are stable because segments,
frames and fields are only ever appended or updated in place. -/

/-- One frame of the parse result: the dictionary
`{"model": ..., "fields": ..., "parameter": ..., "defaults": ...}`.
`parameter` is `none` for the Ellipsis sentinel of the root frame; a
missing `defaults` key is represented by `[]` (the dispatcher reads it
with `model.get("defaults", {})`). -/
structure ModelSt where
  model : PModel
  fields : List FieldSt
  parameter : Option PStr
  defaults : List (PStr × PVal)

instance : Inhabited ModelSt :=
  ⟨{ model := default, fields := [], parameter := Option.none, defaults := [] }⟩

/-- Parser state: the segments collected so far and the address of the
open `current_field`, if any (`none` models the empty dict `{}`). -/
structure ParseSt where
  ret : List (List ModelSt)
  cur : Option (Nat × Nat × Nat)

/-- Errors raised by `parse_command`, carrying the `current_model` frame
and the offending parameter. -/
inductive ParseErr where
  | looseMatch : ModelSt → PStr → ParseErr
  | keyError : ModelSt → PStr → ParseErr

def listModify {α : Type} (xs : List α) (i : Nat) (g : α → α) : List α :=
  match xs[i]? with
  | Option.none => xs
  | some x => xs.set i (g x)

def listModifyLast {α : Type} : List α → (α → α) → List α
  | [], _ => []
  | [x], g => [g x]
  | x :: rest, g => x :: listModifyLast rest g

/-- The `current_model` frame: last frame of the last segment. -/
def curFrame (st : ParseSt) : ModelSt := (st.ret.getLastD []).getLastD default

/-- Read the `current_field` dictionary through its address. -/
def getFieldSt (st : ParseSt) : Option FieldSt :=
  match st.cur with
  | Option.none => Option.none
  | some (i, j, k) => do
    let seg ← st.ret[i]?
    let fr ← seg[j]?
    fr.fields[k]?

/-- Mutate the `current_field` dictionary in place (Python aliasing). -/
def modifyCurField (st : ParseSt) (g : FieldSt → FieldSt) : ParseSt :=
  match st.cur with
  | Option.none => st
  | some (i, j, k) =>
    { st with
      ret := listModify st.ret i (fun seg =>
        listModify seg j (fun fr => { fr with fields := listModify fr.fields k g })) }

/-- The recurring guard
`current_field.get("values") is ... and current_field["field"].json_schema_extra
is not None and "presence" in current_field["field"].json_schema_extra`
followed by `_save_collected_value(current_field, presence)`. -/
def presenceCheck (st : ParseSt) : ParseSt :=
  match getFieldSt st with
  | some f =>
    match f.values, f.field.presence with
    | FieldVals.unset, some p =>
      modifyCurField st (fun g => save_collected_value g p false)
    | _, _ => st
  | Option.none => st

/-- The code after the token loop: the same presence check, disabled for
help / tab-completion parses. -/
def parseFinalize (st : ParseSt) (is_help : Bool) : ParseSt :=
  if is_help then st else presenceCheck st

/-- Does the string start with the given character (after no stripping)? -/
def startsWithChar (c : Char) : PStr → Bool
  | [] => false
  | d :: _ => d = c

/-- Inner collection loop for JSON literals: pop tokens until one ends
(after stripping) with the closing bracket; every popped token is kept
verbatim.  Returns the collected tokens and the remaining parameters. -/
def collectBracket (close : Char) : List PStr → List PStr × List PStr
  | [] => ([], [])
  | p :: rest =>
    if (pyStrip p).getLast? = some close then ([p], rest)
    else
      let (items, rem) := collectBracket close rest
      (p :: items, rem)

/-- Inner collection loop for quoted values: pop tokens, stripping every
quote character, until a token containing the quote character is
consumed. -/
def collectQuote (q : Char) : List PStr → List PStr × List PStr
  | [] => ([], [])
  | p :: rest =>
    if p.contains q then ([p.filter (fun c => c ≠ q)], rest)
    else
      let (items, rem) := collectQuote q rest
      (p.filter (fun c => c ≠ q) :: items, rem)

/-- Resolution of a token against `current_model`: exact field name first,
then the first field whose alias — or, failing that, serialization
alias — equals the token; the token is replaced by the actual field
name. -/
def resolveField (m : PModel) (p : PStr) : Option (PStr × PField) :=
  match pyLookup p m.fields with
  | some f => some (p, f)
  | Option.none =>
    m.fields.findSome? (fun nf =>
      if nf.2.alias = some p then some nf
      else if nf.2.serAlias = some p then some nf
      else Option.none)

/-- Result of processing one token: an exception, a `break` out of the
loop, or continuation with the updated state and remaining parameters. -/
inductive StepRes where
  | err : ParseErr → StepRes
  | brk : ParseSt → StepRes
  | cont : ParseSt → List PStr → StepRes

/-- One iteration of the `while parameters:` loop of `App.parse_command`,
with the branches in source order: pipe handling, JSON dict / list
collection, double- then single-quoted value collection, field / model
reference (with presence recording for the field being left), enum
matching for the open field, prefix matches against field names and both
alias kinds, plain value binding, and the final `FieldKeyError`. -/
def parseStep (st : ParseSt) (parameter : PStr) (parameters : List PStr) : StepRes :=
  if parameter = ("|").data then
    match (curFrame st).model.pipe with
    | PipeCfg.nopipe => StepRes.brk st
    | PipeCfg.selfP =>
      let newFrame : ModelSt :=
        { model := (curFrame st).model, fields := [],
          parameter := some parameter, defaults := [] }
      StepRes.cont { st with ret := st.ret ++ [[newFrame]] } parameters
    | PipeCfg.target t =>
      let newFrame : ModelSt :=
        { model := t, fields := [], parameter := some parameter, defaults := [] }
      StepRes.cont { st with ret := st.ret ++ [[newFrame]] } parameters
  else if startsWithChar '{' (pyStrip parameter) && st.cur.isSome then
    let (items, rem) := collectBracket '}' parameters
    let value := pyJoin [' '] (parameter :: items)
    StepRes.cont
      (modifyCurField st (fun f => save_collected_value f (PVal.str value) false)) rem
  else if startsWithChar '[' (pyStrip parameter) && st.cur.isSome then
    let (items, rem) := collectBracket ']' parameters
    let value := pyJoin [' '] (parameter :: items)
    StepRes.cont
      (modifyCurField st (fun f => save_collected_value f (PVal.str value) false)) rem
  else if parameter.contains '"' && st.cur.isSome then
    let first := parameter.filter (fun c => c ≠ '"')
    if parameter.count '"' ≠ 2 then
      let (items, rem) := collectQuote '"' parameters
      let value := pyJoin [' '] (first :: items)
      StepRes.cont
        (modifyCurField st (fun f => save_collected_value f (PVal.str value) false)) rem
    else
      StepRes.cont
        (modifyCurField st (fun f => save_collected_value f (PVal.str first) false))
        parameters
  else if parameter.contains '\'' && st.cur.isSome then
    let first := parameter.filter (fun c => c ≠ '\'')
    if parameter.count '\'' ≠ 2 then
      let (items, rem) := collectQuote '\'' parameters
      let value := pyJoin [' '] (first :: items)
      StepRes.cont
        (modifyCurField st (fun f => save_collected_value f (PVal.str value) false)) rem
    else
      StepRes.cont
        (modifyCurField st (fun f => save_collected_value f (PVal.str first) false))
        parameters
  else
    match resolveField (curFrame st).model parameter with
    | some (rname, field) =>
      match field.fAnn with
      | PAnn.modelA sub =>
        let st1 := presenceCheck st
        let defaults := if st1.ret.length = 1 then extract_model_defaults sub else []
        let newFrame : ModelSt :=
          { model := sub, fields := [], parameter := some rname, defaults := defaults }
        StepRes.cont
          { ret := listModifyLast st1.ret (fun seg => seg ++ [newFrame]),
            cur := Option.none }
          parameters
      | _ =>
        let st1 := presenceCheck st
        let newF : FieldSt :=
          { name := rname, values := FieldVals.unset, field := field }
        let segIdx := st1.ret.length - 1
        let frameIdx := (st1.ret.getLastD []).length - 1
        match (curFrame st1).fields.findIdx? (fun f => f.name = rname) with
        | some i =>
          StepRes.cont
            { ret := listModifyLast st1.ret (fun seg =>
                listModifyLast seg (fun fr => { fr with fields := fr.fields.set i newF })),
              cur := some (segIdx, frameIdx, i) }
            parameters
        | Option.none =>
          StepRes.cont
            { ret := listModifyLast st1.ret (fun seg =>
                listModifyLast seg (fun fr => { fr with fields := fr.fields ++ [newF] })),
              cur := some (segIdx, frameIdx, (curFrame st1).fields.length) }
            parameters
    | Option.none =>
      match st.cur.isSome, (getFieldSt st).map (fun f => f.field.fAnn) with
      | true, some (PAnn.enumA vs) =>
        if vs.any (fun v => v = parameter) then
          StepRes.cont
            (modifyCurField st (fun f => save_collected_value f (PVal.str parameter) false))
            parameters
        else if vs.any (fun v => parameter.isPrefixOf v) then
          StepRes.err (ParseErr.looseMatch (curFrame st) parameter)
        else
          StepRes.cont st parameters
      | _, _ =>
        if (curFrame st).model.fields.any (fun nf => parameter.isPrefixOf nf.1) then
          StepRes.err (ParseErr.looseMatch (curFrame st) parameter)
        else if (curFrame st).model.fields.any (fun nf =>
            match nf.2.alias with
            | some a => parameter.isPrefixOf a
            | Option.none => false) then
          StepRes.err (ParseErr.looseMatch (curFrame st) parameter)
        else if (curFrame st).model.fields.any (fun nf =>
            match nf.2.serAlias with
            | some a => parameter.isPrefixOf a
            | Option.none => false) then
          StepRes.err (ParseErr.looseMatch (curFrame st) parameter)
        else if st.cur.isSome then
          StepRes.cont
            (modifyCurField st (fun f => save_collected_value f (PVal.str parameter) false))
            parameters
        else
          StepRes.err (ParseErr.keyError (curFrame st) parameter)

/-- The fueled token loop.  Every iteration consumes at least the head
token, so fuel equal to the token count never runs out; the fuel-zero
case mirrors loop exit. -/
def parseLoopF (is_help : Bool) : Nat → ParseSt → List PStr → Except ParseErr ParseSt
  | _, st, [] => Except.ok (parseFinalize st is_help)
  | 0, st, _ :: _ => Except.ok (parseFinalize st is_help)
  | fuel + 1, st, parameter :: parameters =>
    match parseStep st parameter parameters with
    | StepRes.err e => Except.error e
    | StepRes.brk st2 => Except.ok (parseFinalize st2 is_help)
    | StepRes.cont st2 rem => parseLoopF is_help fuel st2 rem

/-- `App.parse_command` (without the interactive multi-line collection,
which only reads extra input for fields explicitly marked `multiline`):
tokenize, seed the root frame — whose `defaults` come from the active
shell model — and run the loop. -/
def parse_command (shell : PModel) (command : PStr) (is_help : Bool) :
    Except ParseErr ParseSt :=
  let current_model : ModelSt :=
    { model := shell, fields := [], parameter := Option.none,
      defaults := extract_model_defaults shell }
  parseLoopF is_help (pyTokenize command).length
    { ret := [[current_model]], cur := Option.none } (pyTokenize command)

/-- The bound values of a named field of frame `frameI` of segment `segI`
of a parser state. -/
def stateBound (st : ParseSt) (segI frameI : Nat) (fname : PStr) :
    Option FieldVals :=
  match st.ret[segI]? with
  | Option.none => Option.none
  | some seg =>
    match seg[frameI]? with
    | Option.none => Option.none
    | some fr => (fr.fields.find? (fun f => f.name = fname)).map (fun f => f.values)

/-- Extract the bound values of a named field of frame `frameI` of
segment `segI` from a parse result. -/
def boundValue (r : Except ParseErr ParseSt) (segI frameI : Nat) (fname : PStr) :
    Option FieldVals :=
  match r with
  | Except.error _ => Option.none
  | Except.ok st => stateBound st segI frameI fname

/-- The state a step continues or breaks with, if it did not raise. -/
def stepStateOf : StepRes → Option ParseSt
  | StepRes.err _ => Option.none
  | StepRes.brk st => some st
  | StepRes.cont st _ => some st

/-- Number of pipe segments in a parse result. -/
def segCount (r : Except ParseErr ParseSt) : Option Nat :=
  match r with
  | Except.error _ => Option.none
  | Except.ok st => some st.ret.length

/-! ## Claim C1 — presence values -/

/-- Is the annotation a reference to a nested model? -/
def isModelAnn : PAnn → Bool
  | PAnn.modelA _ => true
  | _ => false

/-- What `_save_collected_value` stores when the presence value is
recorded into a fresh field: JSON fields keep the value raw, all others
coerce string values. -/
def presenceBind (fd : PField) (p : PVal) : PVal :=
  if fd.isJson then p else coerceVal p

/-- A plain optional string field with no presence value. -/
def plainField : PField :=
  PField.mk Option.none Option.none PAnn.scalar false Option.none PVal.pynone false

/-- Root with a single field `flag` (token stream ends after `flag`). -/
def C1ModelEnd (fd : PField) : PModel :=
  PModel.mk ("Root").data [(("flag").data, fd)] PipeCfg.nopipe false

/-- Root with `flag` and a second plain field `other`. -/
def C1ModelField (fd : PField) : PModel :=
  PModel.mk ("Root").data
    [(("flag").data, fd), (("other").data, plainField)] PipeCfg.nopipe false

/-- Root with `flag` and a child model `sub`. -/
def C1ModelChild (fd : PField) : PModel :=
  PModel.mk ("Root").data
    [(("flag").data, fd),
     (("sub").data,
       PField.mk Option.none Option.none
         (PAnn.modelA (PModel.mk ("Sub").data [] PipeCfg.nopipe false))
         false Option.none PVal.pynone false)]
    PipeCfg.nopipe false

/-- Claim C1, counterexample: a scalar field whose declared presence value
is the string `"true"` is bound to the boolean `True`, not to the declared
string — `_save_collected_value` runs the presence value through the
coercion ladder. -/
theorem claim_C1_counterexample :
    boundValue
        (parse_command
          (C1ModelEnd (PField.mk Option.none Option.none PAnn.scalar false
            (some (PVal.str ("true").data)) PVal.pynone false))
          (("flag").data) false)
        0 0 (("flag").data) =
      some (FieldVals.single (PVal.pybool true)) ∧
    FieldVals.single (PVal.pybool true) ≠
      FieldVals.single (PVal.str ("true").data) := by
  exact ⟨rfl, by decide⟩

/-- The parser state in which the shell model `m`'s field `flag` (with
field info `fd`) has just been opened (`current_field` set, no value
collected yet): the state `parse_command` reaches after consuming the
token `flag`. -/
def C1StateOpen (m : PModel) (fd : PField) : ParseSt :=
  { ret := [[{ model := m,
               fields := [⟨("flag").data, FieldVals.unset, fd⟩],
               parameter := Option.none,
               defaults := extract_model_defaults m }]],
    cur := some (0, 0, 0) }

/-- Claim C1 (amended): when the most recently opened field declares a
presence value and no value has been bound by the time the parser moves
past it — the token stream ends, or the next token names another field,
or a child model — the field is never left unresolved: it is bound to
exactly the declared presence value passed through the standard
save/coercion step (`presenceBind`), which is the declared value itself
unless that value is a string the scalar coercion ladder rewrites. -/
theorem claim_C1 (fd : PField) (p : PVal)
    (hp : fd.presence = some p) (hm : isModelAnn fd.fAnn = false) :
    boundValue (parseLoopF false 1 (C1StateOpen (C1ModelEnd fd) fd) [])
        0 0 (("flag").data) = some (FieldVals.single (presenceBind fd p)) ∧
    ((stepStateOf
        (parseStep (C1StateOpen (C1ModelField fd) fd) (("other").data) [])).bind
        (fun s => stateBound s 0 0 (("flag").data)))
      = some (FieldVals.single (presenceBind fd p)) ∧
    ((stepStateOf
        (parseStep (C1StateOpen (C1ModelChild fd) fd) (("sub").data) [])).bind
        (fun s => stateBound s 0 0 (("flag").data)))
      = some (FieldVals.single (presenceBind fd p)) := by
  obtain ⟨a, sa, ann, j, pr, df, rq⟩ := fd
  simp only [PField.presence] at hp
  subst hp
  simp only [isModelAnn, PField.fAnn] at hm
  cases ann with
  | modelA m => simp at hm
  | scalar => cases j <;> exact ⟨rfl, rfl, rfl⟩
  | enumA vs => cases j <;> exact ⟨rfl, rfl, rfl⟩
  | callableA => cases j <;> exact ⟨rfl, rfl, rfl⟩

/-- Claim C1, witness: a scalar flag with presence value `"brief"` (which
the ladder keeps as a string) is bound at end of line, before another
field, and before a child model. -/
theorem claim_C1_witness :
    boundValue
        (parseLoopF false 1
          (C1StateOpen
            (C1ModelEnd (PField.mk Option.none Option.none PAnn.scalar false
              (some (PVal.str ("brief").data)) PVal.pynone false))
            (PField.mk Option.none Option.none PAnn.scalar false
              (some (PVal.str ("brief").data)) PVal.pynone false))
          [])
        0 0 (("flag").data) =
      some (FieldVals.single
        (presenceBind
          (PField.mk Option.none Option.none PAnn.scalar false
            (some (PVal.str ("brief").data)) PVal.pynone false)
          (PVal.str ("brief").data))) :=
  (claim_C1
    (PField.mk Option.none Option.none PAnn.scalar false
      (some (PVal.str ("brief").data)) PVal.pynone false)
    (PVal.str ("brief").data) rfl rfl).1

/-! ## Claim C2 — enum token with no exact and no prefix match -/

/-- Root with one enum field `mode` over variants `alpha` / `beta`. -/
def enumDemoModel : PModel :=
  PModel.mk ("Root").data
    [(("mode").data,
      PField.mk Option.none Option.none
        (PAnn.enumA [("alpha").data, ("beta").data])
        false Option.none PVal.pynone false)]
    PipeCfg.nopipe false

/-- Claim C2, behaviour of the code at the failing situation: when the
open field is an enum and the token matches no variant exactly and is a
prefix of no variant, the `elif` chain has already been entered, so the
token is silently discarded — the state and the remaining parameters are
returned unchanged, with no binding and no error; concretely,
`mode zzz` parses successfully with `mode` still unset instead of falling
through to bind `zzz` as a plain value. -/
theorem claim_C2 :
    (boundValue (parse_command enumDemoModel (("mode zzz").data) false)
        0 0 (("mode").data) = some FieldVals.unset) ∧
    (∀ (st : ParseSt) (t : PStr) (rest : List PStr) (vs : List PStr) (fSt : FieldSt),
      st.cur.isSome = true →
      getFieldSt st = some fSt →
      fSt.field.fAnn = PAnn.enumA vs →
      t ≠ ("|").data →
      startsWithChar '{' (pyStrip t) = false →
      startsWithChar '[' (pyStrip t) = false →
      t.contains '"' = false →
      t.contains '\'' = false →
      resolveField (curFrame st).model t = Option.none →
      vs.any (fun v => v = t) = false →
      vs.any (fun v => t.isPrefixOf v) = false →
      parseStep st t rest = StepRes.cont st rest) := by
  constructor
  · rfl
  · intro st t rest vs fSt hcur hget hann ht hb1 hb2 hq1 hq2 hres hex hpre
    simp at hq1 hq2 hex hpre
    simp [parseStep, ht, hb1, hb2, hq1, hq2, hcur, hget, hann, hres]
    rw [if_neg (fun h => hex t h rfl)]
    rw [if_neg (fun h => by obtain ⟨x, hx, hp⟩ := h; exact hpre x hx hp)]

/-- Claim C2, witness: the general discard step applied at a concrete
open-enum state and token. -/
theorem claim_C2_witness :
    parseStep (C1StateOpen enumDemoModel
        (PField.mk Option.none Option.none
          (PAnn.enumA [("alpha").data, ("beta").data])
          false Option.none PVal.pynone false))
      (("zzz").data) [] =
      StepRes.cont (C1StateOpen enumDemoModel
        (PField.mk Option.none Option.none
          (PAnn.enumA [("alpha").data, ("beta").data])
          false Option.none PVal.pynone false)) [] :=
  claim_C2.2 _ _ _ [("alpha").data, ("beta").data] _
    rfl rfl rfl (by decide) rfl rfl rfl rfl rfl rfl rfl

/-! ## Claim C6 — quoted value collection -/

/-- Root with one plain string field named `field`. -/
def quoteDemoModel : PModel :=
  PModel.mk ("Root").data [(("field").data, plainField)] PipeCfg.nopipe false

/-- Claim C6: `field "a b c"` and `field 'a b c'` bind the identical value
`a b c` with every quote character stripped; and whenever the first quoted
token holds an odd number of quote characters (hence not exactly two),
the parser space-joins the stripped subsequent tokens into the value up to
and including the first token containing the same quote character, leaving
exactly the tokens after it. -/
theorem claim_C6 :
    (boundValue (parse_command quoteDemoModel (("field \"a b c\"").data) false)
        0 0 (("field").data) = some (FieldVals.single (PVal.str ("a b c").data)) ∧
     boundValue (parse_command quoteDemoModel (("field 'a b c'").data) false)
        0 0 (("field").data) = some (FieldVals.single (PVal.str ("a b c").data))) ∧
    (∀ (st : ParseSt) (p : PStr) (rest : List PStr),
      st.cur.isSome = true →
      p ≠ ("|").data →
      startsWithChar '{' (pyStrip p) = false →
      startsWithChar '[' (pyStrip p) = false →
      p.contains '"' = true →
      p.count '"' % 2 = 1 →
      parseStep st p rest =
        StepRes.cont
          (modifyCurField st (fun f => save_collected_value f
            (PVal.str (pyJoin [' ']
              (p.filter (fun c => c ≠ '"') :: (collectQuote '"' rest).1))) false))
          (collectQuote '"' rest).2) ∧
    (∀ (q : Char) (pre : List PStr) (t : PStr) (post : List PStr),
      (∀ x ∈ pre, x.contains q = false) → t.contains q = true →
      collectQuote q (pre ++ t :: post) =
        ((pre ++ [t]).map (fun x => x.filter (fun c => c ≠ q)), post)) := by
  refine ⟨⟨rfl, rfl⟩, ?_, ?_⟩
  · intro st p rest hcur hpipe hb1 hb2 hq hodd
    have hne2 : ¬(p.count '"' = 2) := by
      intro h2; rw [h2] at hodd; simp at hodd
    simp at hq
    simp [parseStep, hpipe, hb1, hb2, hq, hcur, hne2]
  · intro q pre t post hpre ht
    simp at ht
    induction pre with
    | nil => simp [collectQuote, ht]
    | cons x pre' ih =>
      have hx := hpre x (by simp)
      simp at hx
      have ih' := ih (fun y hy => hpre y (by simp [hy]))
      simp [collectQuote, hx, ih']

/-- Claim C6, witness: the accumulation step at a concrete state, and the
collection loop at a concrete token list. -/
theorem claim_C6_witness :
    parseStep (C1StateOpen quoteDemoModel plainField) (("\"a").data)
        [("b").data, ("c\"").data] =
      StepRes.cont
        (modifyCurField (C1StateOpen quoteDemoModel plainField)
          (fun f => save_collected_value f
            (PVal.str (pyJoin [' ']
              ((("\"a").data).filter (fun c => c ≠ '"') ::
                (collectQuote '"' [("b").data, ("c\"").data]).1))) false))
        (collectQuote '"' [("b").data, ("c\"").data]).2 ∧
    collectQuote '"' [("b").data, ("c\"").data] =
      (([("b").data, ("c\"").data]).map (fun x => x.filter (fun c => c ≠ '"')), []) :=
  ⟨claim_C6.2.1 _ _ _ rfl (by decide) rfl rfl rfl rfl,
   claim_C6.2.2 '"' [("b").data] (("c\"").data) [] (by decide) rfl⟩

/-! ## The dispatcher (`App.default`) — call-argument construction

`App.default` walks the parsed segments; for each it gathers
`command_arguments` (bound field values, later duplicates overwriting) and
`command_defaults` (the frames' `defaults` dicts merged left to right),
then calls the resolved handler with
`{**self.shell_defaults, **command_defaults, **command_arguments}` for
segment 0 and `{**command_defaults, **command_arguments}` (plus the piped
result as leading positional argument) for later segments. -/

/-- A keyword-argument value: either one collected value or a list of
accumulated ones. -/
inductive ArgVal where
  | one : PVal → ArgVal
  | many : List PVal → ArgVal
deriving DecidableEq

/-- Inject a defaults dict into keyword-argument values. -/
def toArgDict (d : List (PStr × PVal)) : List (PStr × ArgVal) :=
  d.map (fun kv => (kv.1, ArgVal.one kv.2))

/-- `{f["name"]: f["values"] for model in command for f in model["fields"]
if f["values"] is not ...}`. -/
def command_arguments (command : List ModelSt) : List (PStr × ArgVal) :=
  command.foldl
    (fun acc m =>
      m.fields.foldl
        (fun acc f =>
          match f.values with
          | FieldVals.unset => acc
          | FieldVals.single v => dictSet acc f.name (ArgVal.one v)
          | FieldVals.multi vs => dictSet acc f.name (ArgVal.many vs))
        acc)
    []

/-- `command_defaults.update(model.get("defaults", {}))` over the
segment's frames. -/
def command_defaults (command : List ModelSt) : List (PStr × PVal) :=
  command.foldl (fun acc m => dictUpdate acc m.defaults) []

/-- The keyword arguments of the first pipeline segment's handler call. -/
def first_segment_kwargs (shell_defaults : List (PStr × PVal))
    (command : List ModelSt) : List (PStr × ArgVal) :=
  dictUpdate
    (dictUpdate (toArgDict shell_defaults) (toArgDict (command_defaults command)))
    (command_arguments command)

/-- The keyword arguments of a post-pipe segment's handler call (no
shell-level defaults). -/
def pipe_segment_kwargs (command : List ModelSt) : List (PStr × ArgVal) :=
  dictUpdate (toArgDict (command_defaults command)) (command_arguments command)

/-- The keyword-argument dicts the dispatcher builds, one per parsed
segment, in execution order. -/
def dispatch_kwargs (shell_defaults : List (PStr × PVal))
    (command_models : List (List ModelSt)) : List (List (PStr × ArgVal)) :=
  command_models.enum.map
    (fun ic =>
      if ic.1 = 0 then first_segment_kwargs shell_defaults ic.2
      else pipe_segment_kwargs ic.2)

/-- The first segment of a parse result. -/
def firstSegment (r : Except ParseErr ParseSt) : List ModelSt :=
  match r with
  | Except.error _ => []
  | Except.ok st => st.ret.getD 0 []

/-! ## Claim C7 — pipe token on a model without pipe support -/

/-- Root with one plain field `cmd` and no `PicleConfig.pipe`. -/
def pipeDemoModel : PModel :=
  PModel.mk ("Root").data [(("cmd").data, plainField)] PipeCfg.nopipe false

/-- Claim C7: when a standalone `|` token is met and the current model has
no pipe configuration, the loop breaks — the remaining tokens are dropped
and the result is exactly what the end of the token stream would produce,
so no new segment is created; concretely, `cmd abc | junk more` parses to
the very same one-segment result as `cmd abc` (the binding of `cmd`
included), and the dispatcher builds one keyword-argument dict per parsed
segment, so that surviving segment is still executed. -/
theorem claim_C7 :
    (∀ (st : ParseSt) (rest : List PStr) (fuel : Nat) (is_help : Bool),
      (curFrame st).model.pipe = PipeCfg.nopipe →
      parseLoopF is_help (fuel + 1) st ((("|").data) :: rest) =
        Except.ok (parseFinalize st is_help) ∧
      parseLoopF is_help fuel st [] = Except.ok (parseFinalize st is_help)) ∧
    (parse_command pipeDemoModel (("cmd abc | junk more").data) false =
      parse_command pipeDemoModel (("cmd abc").data) false) ∧
    (segCount (parse_command pipeDemoModel (("cmd abc | junk more").data) false) =
      some 1) ∧
    (boundValue (parse_command pipeDemoModel (("cmd abc | junk more").data) false)
        0 0 (("cmd").data) = some (FieldVals.single (PVal.str ("abc").data))) ∧
    ((parse_command pipeDemoModel (("cmd abc | junk more").data) false).toOption.map
        (fun st => (dispatch_kwargs [] st.ret).length) = some 1) := by
  refine ⟨?_, rfl, rfl, rfl, rfl⟩
  intro st rest fuel is_help h
  constructor
  · simp [parseLoopF, parseStep, h]
  · cases fuel <;> simp [parseLoopF]

/-- Claim C7, witness: the break step applied at a concrete state. -/
theorem claim_C7_witness :
    parseLoopF false 1 (C1StateOpen pipeDemoModel plainField)
        [(("|").data), ("junk").data] =
      Except.ok (parseFinalize (C1StateOpen pipeDemoModel plainField) false) :=
  (claim_C7.1 (C1StateOpen pipeDemoModel plainField) [("junk").data] 0 false rfl).1

/-! ## Dictionary-merge lemmas for the default-layering claim -/

lemma pyLookup_append {α : Type} (k : PStr) (a b : List (PStr × α)) :
    pyLookup k (a ++ b) =
      (match pyLookup k a with
       | some v => some v
       | Option.none => pyLookup k b) := by
  induction a with
  | nil => simp [pyLookup]
  | cons kv a ih =>
    by_cases h : kv.1 = k
    · simp [pyLookup, h]
    · simp [pyLookup, h, ih]

lemma pyLookup_eq_none_iff {α : Type} (k : PStr) (d : List (PStr × α)) :
    pyLookup k d = Option.none ↔ k ∉ d.map Prod.fst := by
  induction d with
  | nil => simp [pyLookup]
  | cons kv d ih =>
    simp only [pyLookup, List.map_cons, List.mem_cons]
    by_cases h : kv.1 = k
    · rw [if_pos h]
      constructor
      · intro hl; exact Option.noConfusion hl
      · intro hm; exact absurd (Or.inl h.symm) hm
    · rw [if_neg h, ih]
      constructor
      · intro hm hor
        rcases hor with h1 | h1
        · exact h h1.symm
        · exact hm h1
      · intro hm h1
        exact hm (Or.inr h1)

lemma pyLookup_mapset_ne {α : Type} (d : List (PStr × α)) (k' : PStr) (v : α)
    (k : PStr) (hk : k' ≠ k) :
    pyLookup k (d.map (fun kv => if kv.1 = k' then (k', v) else kv)) =
      pyLookup k d := by
  induction d with
  | nil => rfl
  | cons kv d ih =>
    by_cases h : kv.1 = k'
    · simp [pyLookup, h, hk, ih]
    · by_cases h2 : kv.1 = k
      · simp [pyLookup, h, h2, Ne.symm hk]
      · simp [pyLookup, h, h2, ih]

lemma pyLookup_mapset_eq {α : Type} (d : List (PStr × α)) (v : α) (k : PStr)
    (hp : (pyLookup k d).isSome = true) :
    pyLookup k (d.map (fun kv => if kv.1 = k then (k, v) else kv)) = some v := by
  induction d with
  | nil => simp [pyLookup] at hp
  | cons kv d ih =>
    by_cases h : kv.1 = k
    · simp [pyLookup, h]
    · simp only [pyLookup, if_neg h] at hp
      simp [pyLookup, h, ih hp]

lemma pyLookup_dictSet {α : Type} (d : List (PStr × α)) (k' : PStr) (v : α)
    (k : PStr) :
    pyLookup k (dictSet d k' v) = if k' = k then some v else pyLookup k d := by
  unfold dictSet
  by_cases hp : (pyLookup k' d).isSome = true
  · rw [if_pos hp]
    by_cases hk : k' = k
    · simp only [hk, if_true] at hp ⊢
      exact pyLookup_mapset_eq d v k hp
    · rw [if_neg hk, pyLookup_mapset_ne d k' v k hk]
  · rw [if_neg hp, pyLookup_append]
    have hnone : pyLookup k' d = Option.none := by
      cases h : pyLookup k' d with
      | none => rfl
      | some w => rw [h] at hp; simp at hp
    by_cases hk : k' = k
    · subst hk
      rw [hnone]
      simp [pyLookup]
    · cases h : pyLookup k d with
      | none => simp [h, pyLookup, hk]
      | some w => simp [h, hk]

lemma pyLookup_dictUpdate {α : Type} :
    ∀ (b a : List (PStr × α)) (k : PStr), (b.map Prod.fst).Nodup →
      pyLookup k (dictUpdate a b) =
        (match pyLookup k b with
         | some v => some v
         | Option.none => pyLookup k a) := by
  intro b
  induction b with
  | nil => intro a k _; simp [dictUpdate, pyLookup]
  | cons kv b ih =>
    intro a k hnd
    rw [List.map_cons, List.nodup_cons] at hnd
    have step : dictUpdate a (kv :: b) = dictUpdate (dictSet a kv.1 kv.2) b := rfl
    rw [step, ih (dictSet a kv.1 kv.2) k hnd.2]
    by_cases hk : kv.1 = k
    · subst hk
      have hb : pyLookup kv.1 b = Option.none :=
        (pyLookup_eq_none_iff kv.1 b).mpr hnd.1
      rw [hb]
      simp [pyLookup, pyLookup_dictSet]
    · cases h : pyLookup k b with
      | none => simp [pyLookup, hk, pyLookup_dictSet, h]
      | some w => simp [pyLookup, hk, h]

lemma dictSet_keys {α : Type} (d : List (PStr × α)) (k : PStr) (v : α) :
    (dictSet d k v).map Prod.fst =
      if (pyLookup k d).isSome = true then d.map Prod.fst
      else d.map Prod.fst ++ [k] := by
  unfold dictSet
  split
  · rw [List.map_map]
    apply List.map_congr_left
    intro kv _
    by_cases hk : kv.1 = k <;> simp [hk]
  · simp

lemma dictSet_nodup {α : Type} (d : List (PStr × α)) (k : PStr) (v : α)
    (h : (d.map Prod.fst).Nodup) : ((dictSet d k v).map Prod.fst).Nodup := by
  rw [dictSet_keys]
  split
  · exact h
  · next hp =>
    have hk : k ∉ d.map Prod.fst := by
      apply (pyLookup_eq_none_iff k d).mp
      cases hh : pyLookup k d with
      | none => rfl
      | some w => rw [hh] at hp; simp at hp
    rw [List.nodup_append]
    exact ⟨h, List.nodup_singleton k,
      fun x hx hxk => hk ((List.mem_singleton.mp hxk) ▸ hx)⟩

lemma dictUpdate_nodup {α : Type} :
    ∀ (b a : List (PStr × α)), (a.map Prod.fst).Nodup →
      ((dictUpdate a b).map Prod.fst).Nodup := by
  intro b
  induction b with
  | nil => intro a h; exact h
  | cons kv b ih =>
    intro a h
    exact ih (dictSet a kv.1 kv.2) (dictSet_nodup a kv.1 kv.2 h)

lemma fields_fold_nodup :
    ∀ (fs : List FieldSt) (acc : List (PStr × ArgVal)),
      (acc.map Prod.fst).Nodup →
      ((fs.foldl
        (fun acc f =>
          match f.values with
          | FieldVals.unset => acc
          | FieldVals.single v => dictSet acc f.name (ArgVal.one v)
          | FieldVals.multi vs => dictSet acc f.name (ArgVal.many vs))
        acc).map Prod.fst).Nodup := by
  intro fs
  induction fs with
  | nil => intro acc h; exact h
  | cons f fs ih =>
    intro acc h
    simp only [List.foldl_cons]
    cases hv : f.values with
    | unset => simp only [hv]; exact ih acc h
    | single v => simp only [hv]; exact ih _ (dictSet_nodup acc f.name (ArgVal.one v) h)
    | multi vs => simp only [hv]; exact ih _ (dictSet_nodup acc f.name (ArgVal.many vs) h)

lemma command_arguments_nodup (command : List ModelSt) :
    ((command_arguments command).map Prod.fst).Nodup := by
  unfold command_arguments
  generalize hacc : ([] : List (PStr × ArgVal)) = acc
  have hnd : (acc.map Prod.fst).Nodup := by rw [← hacc]; simp
  clear hacc
  induction command generalizing acc with
  | nil => exact hnd
  | cons m command ih => exact ih _ (fields_fold_nodup m.fields acc hnd)

lemma toArgDict_keys (d : List (PStr × PVal)) :
    (toArgDict d).map Prod.fst = d.map Prod.fst := by
  unfold toArgDict
  rw [List.map_map]
  rfl

lemma command_defaults_nodup (command : List ModelSt) :
    ((command_defaults command).map Prod.fst).Nodup := by
  unfold command_defaults
  generalize hacc : ([] : List (PStr × PVal)) = acc
  have hnd : (acc.map Prod.fst).Nodup := by rw [← hacc]; simp
  clear hacc
  induction command generalizing acc with
  | nil => exact hnd
  | cons m command ih => exact ih _ (dictUpdate_nodup m.defaults acc hnd)

/-! ## Claim C3 — default layering for the first segment -/

/-- Child model `Cmd` with defaults `a = 2`, `b = 3`. -/
def C3Cmd : PModel :=
  PModel.mk ("Cmd").data
    [(("a").data,
      PField.mk Option.none Option.none PAnn.scalar false Option.none (PVal.pyint 2) false),
     (("b").data,
      PField.mk Option.none Option.none PAnn.scalar false Option.none (PVal.pyint 3) false)]
    PipeCfg.nopipe false

/-- Root with a child namespace `cmd`. -/
def C3Root : PModel :=
  PModel.mk ("Root").data
    [(("cmd").data,
      PField.mk Option.none Option.none (PAnn.modelA C3Cmd) false Option.none
        PVal.pynone false)]
    PipeCfg.nopipe false

/-- Claim C3: the keyword arguments of the first segment's handler call
are exactly `{**shell_defaults, **command_defaults, **command_arguments}`
with later keys winning — for every key the bound arguments take
precedence over command defaults, which take precedence over shell
defaults — and for shell defaults `{a: 1}`, traversed-model defaults
`{a: 2, b: 3}` and the parsed explicit argument `a 4`, the handler
receives exactly `{a: 4, b: 3}`. -/
theorem claim_C3 :
    (∀ (sd : List (PStr × PVal)) (command : List ModelSt) (k : PStr),
      pyLookup k (first_segment_kwargs sd command) =
        (match pyLookup k (command_arguments command) with
         | some v => some v
         | Option.none =>
           match pyLookup k (toArgDict (command_defaults command)) with
           | some v => some v
           | Option.none => pyLookup k (toArgDict sd))) ∧
    (first_segment_kwargs [(("a").data, PVal.pyint 1)]
        (firstSegment (parse_command C3Root (("cmd a 4").data) false)) =
      [(("a").data, ArgVal.one (PVal.pyint 4)),
       (("b").data, ArgVal.one (PVal.pyint 3))]) := by
  constructor
  · intro sd command k
    unfold first_segment_kwargs
    rw [pyLookup_dictUpdate (command_arguments command) _ k
      (command_arguments_nodup command)]
    rw [pyLookup_dictUpdate (toArgDict (command_defaults command)) _ k
      (by rw [toArgDict_keys]; exact command_defaults_nodup command)]
    cases pyLookup k (command_arguments command) <;>
      cases pyLookup k (toArgDict (command_defaults command)) <;> rfl
  · rfl

/-! ## Shell navigation (`App.default` subshell branch, `App.do_exit`)

Prompt handling is omitted (display only).  `do_exit` is modelled for a
plain `exit` line (no `"?"` in the argument); the shells stack is never
empty in reachable states, matching `self.shells[-1]`. -/

/-- Python's `m in self.shells` compares class objects by identity; class
identity is modelled by the model's name tag, assumed unique per
application. -/
def modelIdEq (a b : PModel) : Bool := a.mname = b.mname

/-- `App.defaults_update`. -/
def defaults_update (d : List (PStr × PVal)) (m : PModel) : List (PStr × PVal) :=
  dictUpdate d (extract_model_defaults m)

/-- `App.defaults_pop`: remove every field name of the model. -/
def defaults_pop (d : List (PStr × PVal)) (m : PModel) : List (PStr × PVal) :=
  m.fields.foldl (fun acc nf => dictRemove acc nf.1) d

/-- `App.defaults_set`: clear, then update from the model. -/
def defaults_set (m : PModel) : List (PStr × PVal) := extract_model_defaults m

/-- The mutable shell state of `App`: `self.shell_defaults` and
`self.shells` (the active shell is the stack top). -/
structure AppSt where
  shell_defaults : List (PStr × PVal)
  shells : List PModel

/-- `App.do_exit` for a plain `exit`: pop the closing shell's field names
from the defaults, pop the stack, and — only when the top shell is
reached — recompute the defaults from it; returns `true` when the stack
emptied (session end). -/
def do_exit (app : AppSt) : AppSt × Bool :=
  let d1 := defaults_pop app.shell_defaults (app.shells.getLastD default)
  let shells1 := app.shells.dropLast
  if shells1.isEmpty then ({ shell_defaults := d1, shells := shells1 }, true)
  else if shells1.length = 1 then
    ({ shell_defaults := defaults_set (shells1.getLastD default), shells := shells1 },
      false)
  else ({ shell_defaults := d1, shells := shells1 }, false)

/-- The subshell-entry branch of `App.default`: for every frame before the
last, merge that model's defaults into the shell defaults and push it if
it is itself subshell-marked and not already on the stack; then push the
final model. -/
def enter_subshell (app : AppSt) (command : List ModelSt) : AppSt :=
  let app1 := command.dropLast.foldl
    (fun (a : AppSt) (item : ModelSt) =>
      let m := item.model
      let a1 : AppSt := { a with shell_defaults := defaults_update a.shell_defaults m }
      if m.subshell && !(a1.shells.any (fun s => modelIdEq s m)) then
        { a1 with shells := a1.shells ++ [m] }
      else a1)
    app
  { app1 with shells := app1.shells ++ [(command.getLastD default).model] }

/-- The guard of the subshell branch: no bound arguments and the final
model is subshell-marked. -/
def subshell_navigation (app : AppSt) (command : List ModelSt) : Option AppSt :=
  if (command_arguments command).isEmpty && (command.getLastD default).model.subshell
  then some (enter_subshell app command)
  else Option.none

/-! ## Claim C4 — subshell defaults round trip on exit -/

/-- Innermost shell `G`, declaring field `x` with default `5` — the same
field name the root's defaults contain. -/
def C4G : PModel :=
  PModel.mk ("G").data
    [(("x").data,
      PField.mk Option.none Option.none PAnn.scalar false Option.none (PVal.pyint 5) false)]
    PipeCfg.nopipe true

/-- Intermediate shell `C` with the child model `g`. -/
def C4C : PModel :=
  PModel.mk ("C").data
    [(("g").data,
      PField.mk Option.none Option.none (PAnn.modelA C4G) false Option.none
        PVal.pynone false)]
    PipeCfg.nopipe true

/-- Root with default `x = 1` and the subshell `c`. -/
def C4Root : PModel :=
  PModel.mk ("Root").data
    [(("x").data,
      PField.mk Option.none Option.none PAnn.scalar false Option.none (PVal.pyint 1) false),
     (("c").data,
      PField.mk Option.none Option.none (PAnn.modelA C4C) false Option.none
        PVal.pynone false)]
    PipeCfg.nopipe false

/-- The app state after entering subshell `c` from a fresh app. -/
def C4app1 : AppSt :=
  enter_subshell { shell_defaults := [], shells := [C4Root] }
    (firstSegment (parse_command C4Root (("c").data) false))

/-- The app state after further entering subshell `g` from within `c`. -/
def C4app2 : AppSt :=
  enter_subshell C4app1 (firstSegment (parse_command C4C (("g").data) false))

/-- Claim C4, counterexample: at depth two, entering the subshell `g`
(whose model declares the field name `x` that the active defaults also
contain) and then executing `exit` does not restore the defaults: the exit
pops `x` from the defaults and, since the top shell is not reached, never
recomputes them. -/
theorem claim_C4_counterexample :
    subshell_navigation C4app1
        (firstSegment (parse_command C4C (("g").data) false)) = some C4app2 ∧
    C4app1.shell_defaults = [(("x").data, PVal.pyint 1)] ∧
    (do_exit C4app2).1.shells = [C4Root, C4C] ∧
    (do_exit C4app2).1.shell_defaults = [] ∧
    (do_exit C4app2).1.shell_defaults ≠ C4app1.shell_defaults := by
  exact ⟨rfl, rfl, rfl, rfl, by decide⟩

/-- Claim C4 (amended): an `exit` that returns to the top shell recomputes
the shell defaults as exactly the root model's extracted defaults — so a
top-level enter/exit round trip restores the pre-entry defaults precisely
when they already equalled the root's defaults (as after any earlier
cycle); an `exit` that still leaves nesting only pops the exiting shell's
field names from the defaults, without recomputation. -/
theorem claim_C4 :
    (∀ (app : AppSt) (r c : PModel), app.shells = [r, c] →
      (do_exit app).1.shell_defaults = extract_model_defaults r ∧
      (do_exit app).1.shells = [r]) ∧
    (∀ app : AppSt, 2 ≤ app.shells.length - 1 →
      (do_exit app).1.shell_defaults =
        defaults_pop app.shell_defaults (app.shells.getLastD default)) ∧
    (do_exit (enter_subshell (do_exit C4app1).1
        (firstSegment (parse_command C4Root (("c").data) false)))).1 =
      (do_exit C4app1).1 := by
  refine ⟨?_, ?_, rfl⟩
  · intro app r c h
    unfold do_exit
    rw [h]
    simp [defaults_set]
  · intro app h
    unfold do_exit
    have h1 : ¬app.shells.dropLast.isEmpty = true := by
      rw [List.isEmpty_iff, ← List.length_eq_zero, List.length_dropLast]
      omega
    have h2 : ¬app.shells.dropLast.length = 1 := by
      rw [List.length_dropLast]
      omega
    have h3 : ¬app.shells.length = 2 := by omega
    simp [h1, h2, h3]

/-- Claim C4, witness: the exit-to-top recomputation applied at the
concrete depth-one state. -/
theorem claim_C4_witness :
    (do_exit C4app1).1.shell_defaults = extract_model_defaults C4Root ∧
    (do_exit C4app1).1.shells = [C4Root] :=
  claim_C4.1 C4app1 C4Root C4C rfl

/-! ## Claim C10 — quoting does not suppress scalar coercion -/

/-- Root with one field named `field` described by `fd`. -/
def C10Model (fd : PField) : PModel :=
  PModel.mk ("Root").data [(("field").data, fd)] PipeCfg.nopipe false

/-- The parser state with `field` just opened and unvalued. -/
def C10StateOpen (fd : PField) : ParseSt :=
  { ret := [[{ model := C10Model fd,
               fields := [⟨("field").data, FieldVals.unset, fd⟩],
               parameter := Option.none,
               defaults := extract_model_defaults (C10Model fd) }]],
    cur := some (0, 0, 0) }

/-- Claim C10: a quoted value bound to a non-JSON field runs through the
same coercion ladder as an unquoted one after quote stripping — the full
input `field "123"` binds the integer `123` and `field "true"` binds the
boolean `True` on a plain string field, and for every non-JSON non-model
field the tokens `"123"` / `"true"` processed against the open field bind
the coerced integer / boolean, never the literal text. -/
theorem claim_C10 (fd : PField) (hj : fd.isJson = false)
    (hm : isModelAnn fd.fAnn = false) :
    boundValue (parse_command quoteDemoModel (("field \"123\"").data) false)
        0 0 (("field").data) = some (FieldVals.single (PVal.pyint 123)) ∧
    boundValue (parse_command quoteDemoModel (("field \"true\"").data) false)
        0 0 (("field").data) = some (FieldVals.single (PVal.pybool true)) ∧
    ((stepStateOf (parseStep (C10StateOpen fd) (("\"123\"").data) [])).bind
        (fun s => stateBound s 0 0 (("field").data)))
      = some (FieldVals.single (PVal.pyint 123)) ∧
    ((stepStateOf (parseStep (C10StateOpen fd) (("\"true\"").data) [])).bind
        (fun s => stateBound s 0 0 (("field").data)))
      = some (FieldVals.single (PVal.pybool true)) := by
  obtain ⟨a, sa, ann, j, pr, df, rq⟩ := fd
  simp only [PField.isJson] at hj
  subst hj
  simp only [isModelAnn, PField.fAnn] at hm
  cases ann with
  | modelA m => simp at hm
  | scalar => exact ⟨rfl, rfl, rfl, rfl⟩
  | enumA vs => exact ⟨rfl, rfl, rfl, rfl⟩
  | callableA => exact ⟨rfl, rfl, rfl, rfl⟩

/-- Claim C10, witness: the coercion of quoted `123` on a concrete plain
field. -/
theorem claim_C10_witness :
    ((stepStateOf (parseStep (C10StateOpen plainField) (("\"123\"").data) [])).bind
        (fun s => stateBound s 0 0 (("field").data)))
      = some (FieldVals.single (PVal.pyint 123)) :=
  (claim_C10 plainField rfl rfl).2.2.1

end Picle
